import Mathlib

/-!
# Verification of the Vienna Type List Library (VTLL.h)

A shallow embedding of the compile-time type-list algorithms of `src/VTLL.h`
(namespace `vtll`) together with proofs about them.

Modelling conventions:
* A C++ type token is a value of the inductive `vtll.Ty`; `Ty.base s` is an
  atomic type such as `int` or `double`, and the other constructors model the
  qualifiers and compound shapes that `std::decay` inspects
  (const, lvalue/rvalue reference, pointer, array, function) plus
  `std::integral_constant<size_t, n>` (`Ty.ic n`).
* A type sequence `Seq<Ts...>` is modelled by its element list `List α`
  (the algorithms are templates, polymorphic in the element type, so most
  definitions are stated over an arbitrary `α` with decidable equality, which
  models `std::is_same_v`).  Where the concrete sequence *shape* (the tag
  template such as `type_list` vs `detail::type_list2`) is observable, a
  sequence is modelled by `TSeq α`: a shape tag (the template's name) plus the
  element list.  Value sequences `Seq<size_t...>` are modelled by `VSeq`
  likewise.
* `size_t` arithmetic on `std::integral_constant<std::size_t, _>` values is
  modelled exactly: results are reduced modulo `2^64`
  (`size_t_modulus`), and `std::numeric_limits<size_t>::max()` is
  `size_t_max = 2^64 - 1`.
* An expression whose instantiation is a C++ compile-time failure (an
  out-of-range `std::tuple_element`, a non-matching primary template that is
  only declared, a fold expression over parameter packs of different lengths,
  or an ambiguous choice of partial specializations) is modelled by `Option`:
  `none` is "fails to compile", `some x` is "resolves to `x`".
-/

namespace vtll

/-- `std::numeric_limits<std::size_t>::max()`, i.e. `2^64 - 1`. -/
def size_t_max : Nat := 18446744073709551615

/-- The modulus of `size_t` arithmetic, `2^64`. -/
def size_t_modulus : Nat := 18446744073709551616

/-- A C++ type token.  `base` covers the atomic types used by the library's
tests (`double`, `char`, `bool`, `int`, `float`, ...); the remaining
constructors model the type structure that `std::decay_t` acts on, plus
`std::integral_constant<std::size_t, n>` (`ic n`), the "integer token" of the
value algebra. -/
inductive Ty : Type where
  | base : String → Ty
  | const : Ty → Ty
  | ref : Ty → Ty
  | rref : Ty → Ty
  | ptr : Ty → Ty
  | arr : Ty → Nat → Ty
  | fn : Ty → Ty → Ty
  | ic : Nat → Ty
deriving DecidableEq, Repr

/-- The C++ type `double`. -/
def double : Ty := Ty.base "double"

/-- The C++ type `char`. -/
def char : Ty := Ty.base "char"

/-- The C++ type `bool`. -/
def bool : Ty := Ty.base "bool"

/-- The C++ type `int`. -/
def int : Ty := Ty.base "int"

/-- The C++ type `float`. -/
def float : Ty := Ty.base "float"

/-- `std::remove_reference_t`: strip a top-level `&` or `&&`. -/
def remove_reference : Ty → Ty
  | Ty.ref t => t
  | Ty.rref t => t
  | t => t

/-- `std::remove_cv_t`: strip top-level const qualification. -/
def remove_cv : Ty → Ty
  | Ty.const t => remove_cv t
  | t => t

/-- `std::decay_t`: strip references, then turn an array into a pointer to its
element type, a function type into a pointer to it, and otherwise strip
top-level cv-qualification. -/
def decay (t : Ty) : Ty :=
  match remove_reference t with
  | Ty.arr e _ => Ty.ptr e
  | Ty.fn a r => Ty.ptr (Ty.fn a r)
  | u => remove_cv u

variable {α : Type} [DecidableEq α]

/-- `vtll::size`: the arity `sizeof...(Ts)` of a sequence's element pack. -/
def size (seq : List α) : Nat := seq.length

/-- `vtll::Nth_type`: the element at position `N`
(`std::tuple_element<N, std::tuple<Ts...>>`); out of range it fails to
compile, which is modelled by `none`. -/
def Nth_type (seq : List α) (N : Nat) : Option α := seq.get? N

/-- `vtll::index_of` (VTLL.h lines 130-147): position of the first occurrence
of `T`.  The empty-sequence base case is
`std::numeric_limits<size_t>::max()`; the recursive case computes
`1 + index_of_impl<Seq<Ts...>, T>::value` in `size_t` arithmetic, i.e.
modulo `2^64`. -/
def index_of (seq : List α) (T : α) : Nat :=
  match seq with
  | [] => size_t_max
  | t :: ts => if t = T then 0 else (1 + index_of ts T) % size_t_modulus

/-- The recursion of `vtll::detail::cat_impl` (VTLL.h lines 156-181) once the
first list is nonempty: single-element transfer from the front of the second
list onto the back of the first (`cat_impl<Seq1<Ts1..., T>, Seq2<Ts2...>>`),
with base case `cat_impl<Seq1<Ts...>, Seq2<>> = Seq1<Ts...>`. -/
def cat_go (as bs : List α) : List α :=
  match bs with
  | [] => as
  | b :: bs2 => cat_go (as ++ [b]) bs2

/-- A tagged type sequence `Seq<Ts...>`: the name of the tag template
(`"type_list"`, `"type_list2"`, ...) plus the element pack. -/
structure TSeq (α : Type) where
  tag : String
  elems : List α
deriving DecidableEq, Repr

/-- `vtll::cat` (VTLL.h lines 156-181): concatenation of two sequences, the
result carrying the first sequence's shape.  When the first sequence is empty,
no partial specialization of `cat_impl` is most specialized (the
`<Seq1<>, Seq2<Ts...>>` one is ambiguous with each of the other two), so the
instantiation fails to compile: `none`. -/
def cat (A B : TSeq α) : Option (TSeq α) :=
  match A.elems with
  | [] => none
  | a :: as => some ⟨A.tag, cat_go (a :: as) B.elems⟩

/-- `vtll::has_type` (VTLL.h lines 328-345): the fold
`(std::is_same_v<T, Ts> || ...)`. -/
def has_type (seq : List α) (T : α) : Bool :=
  seq.any fun t => decide (T = t)

/-- `vtll::has_all_types` (VTLL.h lines 430-442): the fold
`(has_type<Seq1<Ts1...>, Ts2>::value && ...)` over the elements of the second
sequence. -/
def has_all_types (seqA seqB : List α) : Bool :=
  seqB.all fun c => has_type seqA c

/-- `vtll::erase_type` (VTLL.h lines 353-373): keep the head iff it differs
from `C` (`std::conditional<!std::is_same_v<T, C>, cat<Seq<T>, rest>, rest>`)
and recurse.  The `cat` here always has the singleton `Seq<T>` as its first
argument, hence is the `cat_go` recursion. -/
def erase_type (seq : List α) (C : α) : List α :=
  match seq with
  | [] => []
  | t :: ts =>
      if ¬ t = C then cat_go [t] (erase_type ts C) else erase_type ts C

/-- `vtll::filter_have_all_types` (VTLL.h lines 486-504): keep the head inner
sequence iff `has_all_types<T, Seq2<Cs...>>` holds
(`std::conditional<..., cat<Seq1<T>, rest>, rest>`) and recurse. -/
def filter_have_all_types (S : List (List α)) (Cs : List α) : List (List α) :=
  match S with
  | [] => []
  | t :: ts =>
      if has_all_types t Cs then cat_go [t] (filter_have_all_types ts Cs)
      else filter_have_all_types ts Cs

/-- `vtll::is_same` (VTLL.h lines 307-323) for a sequence argument
`Seq<Ts...>`: `sizeof...(Ts) == sizeof...(Args) &&
(std::is_same_v<std::decay_t<Ts>, std::decay_t<Args>> && ... && true)`.
The fold expands the packs `Ts` and `Args` together, so when their lengths
differ the instantiation is ill-formed ("mismatched argument pack lengths"):
modelled by `none`. -/
def is_same (seq args : List Ty) : Option Bool :=
  if seq.length = args.length then
    some ((decide (seq.length = args.length)) &&
      ((seq.zip args).all fun p => decide (decay p.1 = decay p.2)))
  else none

/-- `vtll::transform` (VTLL.h lines 226-240): apply `Fun` to every element,
`Seq<Fun<Ts>...>`. -/
def transform {β : Type} (seq : List α) (F : α → β) : List β :=
  seq.map F

/-- `vtll::map` (VTLL.h lines 628-649) on a map whose elements are 2-element
key/value sequences, modelled as pairs (for a 2-element sequence, `front` is
the first and `back` the second component).  Following the source:
`Keys = transform<Map, front>`, and the result is
`std::conditional<has_type<Keys, Key>::value,
back<Nth_type<Map, index_of<Keys, Key>::value>>, Default>::type`.
`std::conditional` is given both branches fully formed, so
`Nth_type<Map, index_of<Keys, Key>::value>` is instantiated even when the key
is absent; if that index is out of range the whole lookup fails to compile
(`none`). -/
def map (M : List (α × α)) (Key Default : α) : Option α :=
  let Keys := transform M Prod.fst
  match Nth_type M (index_of Keys Key) with
  | none => none
  | some p => some (if has_type Keys Key then p.2 else Default)

/-- A tagged value sequence `Seq<Is...>` of `size_t` literals: the name of the
tag template (`"value_list"`, ...) plus the integer pack. -/
structure VSeq where
  tag : String
  vals : List Nat
deriving DecidableEq, Repr

/-- `vtll::value_to_type` (VTLL.h lines 877-888): wrap each integer of a value
sequence (of any shape `Seq<Is...>`) into `std::integral_constant<size_t, Is>`,
producing a `vtll::type_list`. -/
def value_to_type (V : VSeq) : TSeq Ty :=
  ⟨"type_list", V.vals.map Ty.ic⟩

/-- The projection `Ts::value` of one element: defined only for an
integer-token (`std::integral_constant`); for any other type the member access
fails to compile. -/
def ic_value : Ty → Option Nat
  | Ty.ic n => some n
  | _ => none

/-- `Ts::value...` over a whole element pack. -/
def ic_values : List Ty → Option (List Nat)
  | [] => some []
  | t :: ts =>
      match ic_value t, ic_values ts with
      | some v, some vs => some (v :: vs)
      | _, _ => none

/-- `vtll::type_to_value` (VTLL.h lines 853-864): project the carried integers
out of a sequence of integer-tokens (of any shape), producing a
`vtll::value_list`. -/
def type_to_value (seq : TSeq Ty) : Option VSeq :=
  match ic_values seq.elems with
  | some vs => some ⟨"value_list", vs⟩
  | none => none

/-- One step of `vtll::detail::static_for_impl` (VTLL.h lines 675-685): the
comma fold `(f(std::integral_constant<T, Begin + Is>{}), ...)` invokes `f`
left-to-right on `Begin + Is` for the indices `Is` of
`std::make_integer_sequence`.  The action is modelled as a state transformer
so that the sequence of invocations is observable. -/
def static_for_impl {σ : Type} (f : Int → σ → σ) (Begin : Nat → Int)
    (Is : List Nat) (s : σ) : σ :=
  match Is with
  | [] => s
  | i :: rest => static_for_impl f Begin rest (f (Begin i) s)

/-- `vtll::static_for` (VTLL.h lines 682-685): run the action once per index of
`std::make_integer_sequence<T, End - Begin>` (which is `0, 1, ..., End-Begin-1`
and is ill-formed for a negative length, modelled by `none`), each shifted by
`Begin`. -/
def static_for {σ : Type} (B E : Int) (f : Int → σ → σ) (s : σ) : Option σ :=
  if E - B < 0 then none
  else some (static_for_impl f (fun i => B + (i : Int)) (List.range (E - B).toNat) s)

/-! ## Helper lemmas -/

omit [DecidableEq α] in
/-- The accumulator recursion of `cat_impl` computes list append. -/
theorem cat_go_eq_append (as bs : List α) : cat_go as bs = as ++ bs := by
  induction bs generalizing as with
  | nil => simp [cat_go]
  | cons b bs2 ih => simp [cat_go, ih]

/-- `has_type` decides membership. -/
theorem has_type_iff_mem (seq : List α) (T : α) :
    has_type seq T = true ↔ T ∈ seq := by
  simp [has_type]

/-- When `T` occurs in a sequence shorter than `2^64`, the `size_t` increments
of `index_of` never wrap, so the result is a genuine position. -/
theorem index_of_lt_of_mem (l : List α) (T : α) (hm : T ∈ l)
    (hl : l.length < size_t_modulus) : index_of l T < l.length := by
  induction l with
  | nil => cases hm
  | cons t ts ih =>
    by_cases h : t = T
    · simp [index_of, h]
    · rcases List.mem_cons.mp hm with h1 | h1
      · exact absurd h1.symm h
      · have hts : ts.length < size_t_modulus := by
          simp only [List.length_cons] at hl; omega
        have hidx := ih h1 hts
        have hlt : 1 + index_of ts T < size_t_modulus := by omega
        simp only [index_of, if_neg h, Nat.mod_eq_of_lt hlt, List.length_cons]
        omega

/-- `index_of` on a cons whose head misses, without wraparound. -/
theorem index_of_cons_of_ne {t T : α} (ts : List α) (h : ¬ t = T)
    (hlt : 1 + index_of ts T < size_t_modulus) :
    index_of (t :: ts) T = 1 + index_of ts T := by
  simp only [index_of, if_neg h, Nat.mod_eq_of_lt hlt]

/-- `erase_type` is the filter that drops exactly the elements equal to `C`. -/
theorem erase_type_eq_filter (seq : List α) (C : α) :
    erase_type seq C = seq.filter fun t => decide (¬ t = C) := by
  induction seq with
  | nil => rfl
  | cons t ts ih =>
    by_cases h : t = C
    · simp [erase_type, h, ih, List.filter_cons]
    · simp [erase_type, h, ih, List.filter_cons, cat_go_eq_append]

/-- `filter_have_all_types` is the filter by `has_all_types · Cs`. -/
theorem filter_have_all_types_eq_filter (S : List (List α)) (Cs : List α) :
    filter_have_all_types S Cs = S.filter fun si => has_all_types si Cs := by
  induction S with
  | nil => rfl
  | cons t ts ih =>
    by_cases h : has_all_types t Cs
    · simp [filter_have_all_types, h, ih, List.filter_cons, cat_go_eq_append]
    · simp [filter_have_all_types, h, ih, List.filter_cons]

/-- `map` agrees with first-match association lookup whenever the key occurs
among the firsts of a map shorter than `2^64`. -/
theorem map_eq_find_of_mem (M : List (α × α)) (K D : α)
    (h1 : K ∈ transform M Prod.fst) (h2 : M.length < size_t_modulus) :
    map M K D = (M.find? fun p => decide (p.1 = K)).map Prod.snd := by
  induction M with
  | nil => simp [transform] at h1
  | cons p rest ih =>
    by_cases hp : p.1 = K
    · have hht : has_type (K :: List.map Prod.fst rest) K = true := by
        rw [has_type_iff_mem]; exact List.mem_cons_self _ _
      simp [map, transform, Nth_type, index_of, hp, List.find?_cons, hht]
    · have hmem : K ∈ transform rest Prod.fst := by
        simp only [transform, List.map_cons, List.mem_cons] at h1
        rcases h1 with h1 | h1
        · exact absurd h1.symm hp
        · simpa [transform] using h1
      have hrest : rest.length < size_t_modulus := by
        simp only [List.length_cons] at h2; omega
      have hidx : index_of (transform rest Prod.fst) K < rest.length := by
        have := index_of_lt_of_mem (transform rest Prod.fst) K hmem
          (by simpa [transform] using hrest)
        simpa [transform] using this
      have hwrap : 1 + index_of (transform rest Prod.fst) K < size_t_modulus := by
        omega
      have hht : has_type (transform (p :: rest) Prod.fst) K = true := by
        rw [has_type_iff_mem]
        simp only [transform, List.map_cons, List.mem_cons]
        exact Or.inr (by simpa [transform] using hmem)
      have hht2 : has_type (transform rest Prod.fst) K = true :=
        (has_type_iff_mem _ _).mpr hmem
      have hkeys : transform (p :: rest) Prod.fst
          = p.1 :: transform rest Prod.fst := by simp [transform]
      have hio : index_of (transform (p :: rest) Prod.fst) K
          = 1 + index_of (transform rest Prod.fst) K := by
        rw [hkeys]; exact index_of_cons_of_ne _ hp hwrap
      have hget : Nth_type (p :: rest) (1 + index_of (transform rest Prod.fst) K)
          = Nth_type rest (index_of (transform rest Prod.fst) K) := by
        simp [Nth_type, Nat.add_comm 1]
      rw [List.find?_cons_of_neg _ (by simpa using hp), ← ih hmem hrest]
      simp only [map, hio, hget, hht, hht2]

omit [DecidableEq α] in
/-- The observable invocation trace of the comma fold of `static_for_impl`. -/
theorem static_for_impl_trace (B : Nat → Int) (Is : List Nat) (s : List Int) :
    static_for_impl (fun i acc => acc ++ [i]) B Is s = s ++ Is.map B := by
  induction Is generalizing s with
  | nil => simp [static_for_impl]
  | cons i rest ih => simp [static_for_impl, ih]

omit [DecidableEq α] in
/-- Componentwise decayed comparison of two equal-length packs is equality of
the decayed packs. -/
theorem zip_all_decay_iff (xs ys : List Ty) (h : xs.length = ys.length) :
    (((xs.zip ys).all fun p => decide (decay p.1 = decay p.2)) = true)
      ↔ xs.map decay = ys.map decay := by
  induction xs generalizing ys with
  | nil =>
    cases ys with
    | nil => simp
    | cons y ys => simp at h
  | cons x xs ih =>
    cases ys with
    | nil => simp at h
    | cons y ys =>
      simp only [List.length_cons, Nat.add_right_cancel_iff] at h
      simp [List.zip_cons_cons, List.all_cons, ih ys h, Bool.and_eq_true,
        decide_eq_true_iff]

omit [DecidableEq α] in
/-- Projecting `::value` back out of wrapped integer-tokens recovers the
integers. -/
theorem ic_values_map_ic (vs : List Nat) : ic_values (vs.map Ty.ic) = some vs := by
  induction vs with
  | nil => rfl
  | cons v rest ih => simp [ic_values, ic_value, ih]

/-! ## Claims -/

/-- Claim C1.  The claim says `index_of(seq, T)` is the numeric-maximum
sentinel whenever `T` does not occur in `seq`.  On the code this holds only
for the empty sequence: the recursive case adds `1` to the running result in
`size_t` arithmetic, so the base-case sentinel `2^64 - 1` wraps around and a
nonempty `seq` of length `n` not containing `T` yields `n - 1`, not the
sentinel — e.g. `index_of({double}, char) = 0` and
`index_of(erase_type({double, int}, double), double) = 0`. -/
theorem index_of_not_found_wraps :
    index_of ([] : List Ty) char = size_t_max ∧
    index_of [double] char = 0 ∧
    index_of [double, int, bool] char = 2 ∧
    index_of (erase_type [double, int] double) double = 0 ∧
    (0 : Nat) ≠ size_t_max ∧ (2 : Nat) ≠ size_t_max := by
  refine ⟨rfl, by decide, by decide, by decide, by decide, by decide⟩

/-- Claim C2.  The claim says `map(M, Key, Default)` never fails and yields
`Default` for an absent key, for every map including the empty one.  On the
code the empty map fails to compile: `std::conditional` receives both
branches fully formed, so `back<Nth_type<type_list<>, index_of<type_list<>,
Key>::value>>` is instantiated with the huge sentinel index and does not
resolve.  For a nonempty map an absent key does yield `Default` (the wrapped
`index_of` result `size - 1` happens to be in range). -/
theorem map_fails_on_empty_map :
    map ([] : List (Ty × Ty)) int float = none ∧
    map [(int, char)] float double = some double ∧
    map [(int, char), (float, double)] bool char = some char := by
  refine ⟨rfl, by decide, by decide⟩

/-- Claim C3.  The claim says `is_same(seq, args...)` yields `false` when the
arities differ.  On the code a differing arity is a hard compile failure: the
fold `(std::is_same_v<std::decay_t<Ts>, std::decay_t<Args>> && ... && true)`
expands the packs `Ts` and `Args` together, which is ill-formed for packs of
different lengths, before the `sizeof...` comparison could ever yield
`false`.  Matching arities do compare decayed element pairs. -/
theorem is_same_arity_mismatch_fails :
    is_same [int] [int, char] = none ∧
    is_same ([] : List Ty) [int] = none ∧
    is_same [int, char] [int, char] = some true ∧
    is_same [int] [char] = some false := by
  refine ⟨rfl, rfl, by decide, by decide⟩

/-- Claim C4: for a map (shorter than `2^64`, the `size_t` range of its
indices) whose keys contain `Key`, `map(M, Key, Default)` returns the value
half of the first pair of `M` whose key equals `Key`, scanning pairs in
order. -/
theorem map_returns_first_matching_value (M : List (Ty × Ty)) (Key Default : Ty)
    (h1 : Key ∈ transform M Prod.fst) (h2 : M.length < size_t_modulus) :
    map M Key Default = (M.find? fun p => decide (p.1 = Key)).map Prod.snd ∧
    ∃ q : Ty × Ty, M.find? (fun p => decide (p.1 = Key)) = some q ∧ q.1 = Key ∧
      map M Key Default = some q.2 := by
  have hmain := map_eq_find_of_mem M Key Default h1 h2
  refine ⟨hmain, ?_⟩
  have h1x : ∃ x, (Key, x) ∈ M := by simpa [transform] using h1
  rcases h1x with ⟨x, hx⟩
  have hex : ∃ p ∈ M, (fun p : Ty × Ty => decide (p.1 = Key)) p :=
    ⟨(Key, x), hx, by simp⟩
  have hsome : (M.find? fun p => decide (p.1 = Key)).isSome :=
    List.find?_isSome.mpr hex
  rcases Option.isSome_iff_exists.mp hsome with ⟨q, hq⟩
  refine ⟨q, hq, ?_, ?_⟩
  · have := List.find?_some hq
    simpa using this
  · rw [hmain, hq]
    rfl

/-- Witness for claim C4 at the source's own `detail::test_map`:
`{{int,char},{float,double},{double,float}}` with key `int` and default
`float` yields `char`, the value of the first matching pair. -/
theorem map_returns_first_matching_value_witness :
    (int ∈ transform [(int, char), (float, double), (double, float)] Prod.fst) ∧
    ([((int : Ty), (char : Ty)), (float, double), (double, float)].length
      < size_t_modulus) ∧
    (map [(int, char), (float, double), (double, float)] int float
        = (([((int : Ty), (char : Ty)), (float, double), (double, float)].find?
            fun p => decide (p.1 = int)).map Prod.snd) ∧
      ∃ q : Ty × Ty,
        [((int : Ty), (char : Ty)), (float, double), (double, float)].find?
          (fun p => decide (p.1 = int)) = some q ∧ q.1 = int ∧
        map [(int, char), (float, double), (double, float)] int float
          = some q.2) :=
  ⟨by decide, by decide,
    map_returns_first_matching_value _ _ _ (by decide) (by decide)⟩

/-- Claim C5 counterexample.  The round trip
`type_to_value(value_to_type(V))` always produces a `value_list`-shaped
sequence, so for a value sequence of any other shape (here a host-supplied
`value_list2<1, 2>`) it is not the identity: the integers survive but the
shape tag changes. -/
theorem type_value_round_trip_changes_foreign_shape :
    type_to_value (value_to_type ⟨"value_list2", [1, 2]⟩)
      ≠ some (⟨"value_list2", [1, 2]⟩ : VSeq) ∧
    type_to_value (value_to_type ⟨"value_list2", [1, 2]⟩)
      = some (⟨"value_list", [1, 2]⟩ : VSeq) := by
  refine ⟨by decide, by decide⟩

/-- Claim C5, amended: `type_to_value(value_to_type(V))` carries exactly `V`'s
integers back out, in order, into a `value_list`-shaped sequence, and is the
identity whenever `V` itself is `value_list`-shaped (in particular on every
`vtll::value_list`, including the empty one). -/
theorem type_value_round_trip (V : VSeq) :
    type_to_value (value_to_type V) = some ⟨"value_list", V.vals⟩ ∧
    (V.tag = "value_list" → type_to_value (value_to_type V) = some V) := by
  cases V with
  | mk tag vals =>
    have h : type_to_value (value_to_type ⟨tag, vals⟩)
        = some ⟨"value_list", vals⟩ := by
      simp [type_to_value, value_to_type, ic_values_map_ic]
    refine ⟨h, fun ht => ?_⟩
    have ht2 : tag = "value_list" := ht
    subst ht2
    exact h

/-- Witness for the amended claim C5 at `value_list<2, 4, 6>`. -/
theorem type_value_round_trip_witness :
    type_to_value (value_to_type ⟨"value_list", [2, 4, 6]⟩)
      = some (⟨"value_list", [2, 4, 6]⟩ : VSeq) :=
  (type_value_round_trip ⟨"value_list", [2, 4, 6]⟩).2 rfl

/-- Claim C6.  The claim says `cat` is defined for all pairs of sequences.
On the code `cat` with an empty first sequence fails to compile — the
`cat_impl<Seq1<>, Seq2<Ts...>>` partial specialization is ambiguous with each
of the other two, so it can never be selected.  For a nonempty first
sequence, `cat` is concatenation in order, tagged with the first sequence's
shape, and sizes add. -/
theorem cat_ambiguous_on_empty_first :
    cat (⟨"type_list", ([] : List Ty)⟩) ⟨"type_list", []⟩ = none ∧
    cat (⟨"type_list", ([] : List Ty)⟩) ⟨"type_list2", [char, float]⟩ = none ∧
    ∀ (A B : TSeq Ty), A.elems ≠ [] →
      cat A B = some ⟨A.tag, A.elems ++ B.elems⟩ ∧
      ∃ C : TSeq Ty, cat A B = some C ∧ C.tag = A.tag ∧
        size C.elems = size A.elems + size B.elems := by
  refine ⟨rfl, rfl, ?_⟩
  intro A B h
  cases A with
  | mk tag elems =>
    cases elems with
    | nil => exact absurd rfl h
    | cons a as =>
      have hc : cat ⟨tag, a :: as⟩ B = some ⟨tag, (a :: as) ++ B.elems⟩ := by
        simp [cat, cat_go_eq_append]
      refine ⟨hc, ⟨tag, (a :: as) ++ B.elems⟩, hc, rfl, ?_⟩
      simp only [size, List.length_append, List.length_cons]

/-- Witness for the nonempty-first-sequence part of the claim C6 theorem, at
the source's own test case `cat<type_list<double, int>,
detail::type_list2<char, float>>`. -/
theorem cat_ambiguous_on_empty_first_witness :
    ((⟨"type_list", [double, int]⟩ : TSeq Ty).elems ≠ []) ∧
    (cat (⟨"type_list", [double, int]⟩ : TSeq Ty) ⟨"type_list2", [char, float]⟩
        = some ⟨"type_list", [double, int, char, float]⟩ ∧
      ∃ C : TSeq Ty,
        cat (⟨"type_list", [double, int]⟩ : TSeq Ty)
          ⟨"type_list2", [char, float]⟩ = some C ∧
        C.tag = "type_list" ∧
        size C.elems = size [double, int] + size [(char : Ty), float]) :=
  ⟨by decide, cat_ambiguous_on_empty_first.2.2 _ _ (by decide)⟩

/-- Claim C7: `erase_type(seq, T)` removes every occurrence of `T` (it equals
the order-preserving filter keeping the elements different from `T`, and `T`
never occurs in the result), and on the source's test case
`erase_type({double, int, char, double}, double) = {int, char}`. -/
theorem erase_type_removes_all (seq : List Ty) (T : Ty) :
    erase_type seq T = seq.filter (fun t => decide (¬ t = T)) ∧
    T ∉ erase_type seq T ∧
    erase_type [double, int, char, double] double = [int, char] := by
  refine ⟨erase_type_eq_filter seq T, ?_, by decide⟩
  rw [erase_type_eq_filter]
  simp [List.mem_filter]

/-- Claim C8: `filter_have_all_types(S, Cs)` keeps exactly the inner
sequences satisfying `has_all_types(·, Cs)`, preserving their relative order
(it is the order-preserving filter), yields `[]` when no inner sequence
matches, and on the source's test case keeps exactly the first and third
inner lists. -/
theorem filter_have_all_types_keeps_matches (S : List (List Ty)) (Cs : List Ty) :
    filter_have_all_types S Cs = S.filter (fun si => has_all_types si Cs) ∧
    ((∀ si ∈ S, has_all_types si Cs = false) → filter_have_all_types S Cs = []) ∧
    filter_have_all_types
        [[char, float, int], [char, bool, double], [float, double, char]]
        [char, float]
      = [[char, float, int], [float, double, char]] := by
  refine ⟨filter_have_all_types_eq_filter S Cs, ?_, by decide⟩
  intro hnone
  rw [filter_have_all_types_eq_filter]
  apply List.filter_eq_nil_iff.mpr
  intro a ha
  simp [hnone a ha]

/-- Witness for claim C8 on a sequence-of-sequences in which no inner
sequence contains `float`: the filter result is empty. -/
theorem filter_have_all_types_keeps_matches_witness :
    (∀ si ∈ [[(char : Ty)], [double]], has_all_types si [float] = false) ∧
    filter_have_all_types [[(char : Ty)], [double]] [float] = [] :=
  ⟨by decide, (filter_have_all_types_keeps_matches _ _).2.1 (by decide)⟩

/-- Claim C9: for `Begin ≤ End`, `static_for(Begin, End, f)` invokes `f`
exactly once per integer of the half-open range `[Begin, End)`, in ascending
order and with no early exit: the trace of indices passed to `f` has length
`End - Begin` and its `k`-th entry is `Begin + k`. -/
theorem static_for_visits_range_ascending (B E : Int) (h : B ≤ E) :
    ∃ t : List Int,
      static_for B E (fun i acc => acc ++ [i]) [] = some t ∧
      t.length = (E - B).toNat ∧
      ∀ (k : Nat) (hk : k < t.length), t.get ⟨k, hk⟩ = B + k := by
  refine ⟨(List.range (E - B).toNat).map (fun i : Nat => B + (i : Int)), ?_,
    by rw [List.length_map, List.length_range], ?_⟩
  · have h0 : ¬ E - B < 0 := not_lt.mpr (sub_nonneg.mpr h)
    simp only [static_for, if_neg h0, static_for_impl_trace, List.nil_append]
  · intro k hk
    simp only [List.get_eq_getElem, List.getElem_map, List.getElem_range]

/-- Witness for claim C9 at `static_for<int, 0, 3>`: the action is invoked on
exactly `0, 1, 2` in that order. -/
theorem static_for_visits_range_ascending_witness :
    ((0 : Int) ≤ 3) ∧
    ∃ t : List Int,
      static_for 0 3 (fun i acc => acc ++ [i]) [] = some t ∧
      t.length = ((3 : Int) - 0).toNat ∧
      ∀ (k : Nat) (hk : k < t.length), t.get ⟨k, hk⟩ = 0 + k :=
  ⟨by decide, static_for_visits_range_ascending 0 3 (by decide)⟩

/-- Claim C10: for matching arities, `is_same` holds exactly when the packs
agree element-wise after `std::decay`, and `decay` identifies
const/reference-qualified types with their unqualified forms, array types
with pointers to their element type, and function types with function-pointer
types; in particular a sequence containing `int*` matches the argument
`int[3]`. -/
theorem is_same_compares_after_decay (seq args : List Ty)
    (h : seq.length = args.length) :
    (is_same seq args = some true ↔ seq.map decay = args.map decay) ∧
    (∀ t : Ty, decay (Ty.const t) = remove_cv t) ∧
    (∀ b : String, decay (Ty.ref (Ty.base b)) = Ty.base b
        ∧ decay (Ty.const (Ty.base b)) = Ty.base b) ∧
    (∀ (e : Ty) (n : Nat), decay (Ty.arr e n) = Ty.ptr e) ∧
    (∀ a r : Ty, decay (Ty.fn a r) = Ty.ptr (Ty.fn a r)) ∧
    is_same [Ty.ptr int] [Ty.arr int 3] = some true := by
  refine ⟨?_, fun t => rfl, fun b => ⟨rfl, rfl⟩, fun e n => rfl,
    fun a r => rfl, by decide⟩
  rw [is_same, if_pos h, decide_eq_true h, Bool.true_and]
  constructor
  · intro hs
    exact (zip_all_decay_iff seq args h).mp (by simpa using hs)
  · intro hm
    simpa using (zip_all_decay_iff seq args h).mpr hm

/-- Witness for claim C10 at the pair from the claim: the one-element
sequence `{int*}` compared against the argument `int[3]`. -/
theorem is_same_compares_after_decay_witness :
    ([Ty.ptr int].length = [Ty.arr int 3].length) ∧
    ((is_same [Ty.ptr int] [Ty.arr int 3] = some true
        ↔ [Ty.ptr int].map decay = [Ty.arr int 3].map decay) ∧
      (∀ t : Ty, decay (Ty.const t) = remove_cv t) ∧
      (∀ b : String, decay (Ty.ref (Ty.base b)) = Ty.base b
          ∧ decay (Ty.const (Ty.base b)) = Ty.base b) ∧
      (∀ (e : Ty) (n : Nat), decay (Ty.arr e n) = Ty.ptr e) ∧
      (∀ a r : Ty, decay (Ty.fn a r) = Ty.ptr (Ty.fn a r)) ∧
      is_same [Ty.ptr int] [Ty.arr int 3] = some true) :=
  ⟨rfl, is_same_compares_after_decay _ _ rfl⟩

end vtll
